import Mathlib

/-!
Verification of the resonator synthesis engine (ResonatorProcessor).

The definitions below are a shallow embedding of the engine's per-sample
code: JavaScript numbers are modelled as real numbers, the per-branch
Float32Array fields as functions from branch index to real, and fallible
or partial message fields as Option values.  Each definition mirrors the
corresponding function of the source worklet file.
-/

namespace InfiniteGreens

/-- MAX_BRANCHES from the source. -/
def MAX_BRANCHES : ℕ := 40

/-- clamp(value, min, max) = Math.max(min, Math.min(max, value)). -/
def clamp (value lo hi : ℝ) : ℝ := max lo (min hi value)

/-- smoothToward(current, target, alpha): one step of per-sample smoothing,
current + (target - current) * alpha, with an early return when equal. -/
noncomputable def smoothToward (current target alpha : ℝ) : ℝ :=
  if current = target then current else current + (target - current) * alpha

/-- alphaFreq smoothing constant from the constructor. -/
def alphaFreq : ℝ := 0.0005

/-- alphaAmp smoothing constant from the constructor. -/
def alphaAmp : ℝ := 0.0007

/-- omega = this.twopi * effFreqHz / sr (radians per sample). -/
noncomputable def omegaOf (sr effFreqHz : ℝ) : ℝ := Real.pi * 2 * effFreqHz / sr

/-- bwrps = (Math.E / Math.max(1e-3, effDecayMs * 0.001)) * (2*pi/sr):
bandwidth in radians per sample used by recomputeCoefficients. -/
noncomputable def bwrpsOf (sr effDecayMs : ℝ) : ℝ :=
  Real.exp 1 / max 1e-3 (effDecayMs * 0.001) * (Real.pi * 2 / sr)

/-- The coefficients recomputeCoefficients(index, effFreqHz, effDecayMs)
stores: a, b, c of the 2-pole real resonator and the complex one-pole
radius r with its rotation entries rcos, rsin. -/
structure TwoPoleCoeff where
  a : ℝ
  b : ℝ
  c : ℝ
  r : ℝ
  rcos : ℝ
  rsin : ℝ

/-- recomputeCoefficients from the source:
b = 2*cos(omega)*exp(-0.5*bwrps), c = -exp(-bwrps), a = 1 - (c + b),
radius = exp((-1000/sr) / (max(1, effDecayMs) * 0.08)). -/
noncomputable def recomputeCoefficients (sr effFreqHz effDecayMs : ℝ) : TwoPoleCoeff :=
  ⟨1 - (-Real.exp (-bwrpsOf sr effDecayMs) +
      2 * Real.cos (omegaOf sr effFreqHz) * Real.exp (-(0.5) * bwrpsOf sr effDecayMs)),
   2 * Real.cos (omegaOf sr effFreqHz) * Real.exp (-(0.5) * bwrpsOf sr effDecayMs),
   -Real.exp (-bwrpsOf sr effDecayMs),
   Real.exp (-1000 / sr / (max 1 effDecayMs * 0.08)),
   Real.exp (-1000 / sr / (max 1 effDecayMs * 0.08)) * Real.cos (omegaOf sr effFreqHz),
   Real.exp (-1000 / sr / (max 1 effDecayMs * 0.08)) * Real.sin (omegaOf sr effFreqHz)⟩

/-- Claim C1: for every effective frequency in [25, 0.45*sampleRate] and
every effective decay at least 1 ms, the 2-pole coefficients b and c of
recomputeCoefficients give a characteristic polynomial z^2 - b z - c whose
two poles are a conjugate pair of modulus strictly below 1, so the
recursion y[n] = a x[n] + b y[n-1] + c y[n-2] is decaying, not growing. -/
theorem C1_two_pole_stable (sr f d : ℝ) (hsr : 0 < sr) (hf1 : 25 ≤ f)
    (hf2 : f ≤ 0.45 * sr) (hd : 1 ≤ d) :
    ∃ p : ℂ,
      (∀ z : ℂ, z ^ 2 - ((recomputeCoefficients sr f d).b : ℂ) * z -
          ((recomputeCoefficients sr f d).c : ℂ) = (z - p) * (z - (starRingEnd ℂ) p)) ∧
      Complex.abs p < 1 := by
  have hβpos : 0 < bwrpsOf sr d := by
    unfold bwrpsOf
    have h1 : (0:ℝ) < Real.exp 1 / max 1e-3 (d * 0.001) := by positivity
    have h2 : (0:ℝ) < Real.pi * 2 / sr := by positivity
    exact mul_pos h1 h2
  set ω := omegaOf sr f with hω
  set r := Real.exp (-(0.5) * bwrpsOf sr d) with hr
  have hrpos : 0 < r := Real.exp_pos _
  have hrlt : r < 1 := by
    rw [hr]
    exact Real.exp_lt_one_iff.mpr (by nlinarith)
  have hpyth : Real.sin ω ^ 2 + Real.cos ω ^ 2 = 1 := Real.sin_sq_add_cos_sq ω
  have hb : (recomputeCoefficients sr f d).b = 2 * Real.cos ω * r := rfl
  have hrr : Real.exp (-bwrpsOf sr d) = r * r := by
    rw [hr, ← Real.exp_add]
    ring_nf
  have hc : (recomputeCoefficients sr f d).c = -(r * r) := by
    show -Real.exp (-bwrpsOf sr d) = -(r * r)
    rw [hrr]
  refine ⟨⟨r * Real.cos ω, r * Real.sin ω⟩, ?_, ?_⟩
  · intro z
    rw [hb, hc]
    apply Complex.ext
    · simp only [Complex.sub_re, Complex.add_re, Complex.mul_re, Complex.mul_im,
        Complex.ofReal_re, Complex.ofReal_im, Complex.sub_im, Complex.add_im,
        Complex.conj_re, Complex.conj_im, Complex.neg_re, Complex.neg_im, pow_two]
      ring_nf
      nlinarith [hpyth, sq_nonneg z.re, sq_nonneg z.im]
    · simp only [Complex.sub_re, Complex.add_re, Complex.mul_re, Complex.mul_im,
        Complex.ofReal_re, Complex.ofReal_im, Complex.sub_im, Complex.add_im,
        Complex.conj_re, Complex.conj_im, Complex.neg_re, Complex.neg_im, pow_two]
      ring
  · have habs : Complex.abs ⟨r * Real.cos ω, r * Real.sin ω⟩ = r := by
      rw [Complex.abs_apply, Complex.normSq_mk]
      have hsq : r * Real.cos ω * (r * Real.cos ω) + r * Real.sin ω * (r * Real.sin ω)
          = r ^ 2 := by nlinarith [hpyth]
      rw [hsq, Real.sqrt_sq hrpos.le]
    rw [habs]
    exact hrlt

/-- Witness for C1 at sampleRate 48000, frequency 440 Hz, decay 400 ms. -/
theorem C1_witness :
    ∃ p : ℂ,
      (∀ z : ℂ, z ^ 2 - ((recomputeCoefficients 48000 440 400).b : ℂ) * z -
          ((recomputeCoefficients 48000 440 400).c : ℂ) = (z - p) * (z - (starRingEnd ℂ) p)) ∧
      Complex.abs p < 1 :=
  C1_two_pole_stable 48000 440 400 (by norm_num) (by norm_num) (by norm_num) (by norm_num)

/-! ## Per-sample resonator state update (both excitation paths) -/

/-- The per-branch, per-excitation-path resonator history the process loop
stores: 2-pole history y1, y2 and complex one-pole history ry1, iy1
(the twoN_/cN_ arrays for the noise path, twoR_/cR_ for the rain path). -/
structure ResState where
  y1 : ℝ
  y2 : ℝ
  ry1 : ℝ
  iy1 : ℝ

/-- The coefficients the per-sample update reads (two_a, two_b, two_c,
c_rcos, c_rsin), arbitrary per sample since parameters may change. -/
structure ResStepCoeff where
  a : ℝ
  b : ℝ
  c : ℝ
  rcos : ℝ
  rsin : ℝ

/-- One sample of the resonator update from the process loop:
y = a*x + b*y1 + c*y2; y2 := y1; y1 := clamp(y, -1, 1);
r = x*0.02 + rcos*ry1 - rsin*iy1; i = rsin*ry1 + rcos*iy1;
ry1 := clamp(r, -1, 1); iy1 := clamp(i, -1, 1). -/
def resStep (k : ResStepCoeff) (x : ℝ) (s : ResState) : ResState :=
  ⟨clamp (k.a * x + k.b * s.y1 + k.c * s.y2) (-1) 1,
   s.y1,
   clamp (x * 0.02 + k.rcos * s.ry1 - k.rsin * s.iy1) (-1) 1,
   clamp (k.rsin * s.ry1 + k.rcos * s.iy1) (-1) 1⟩

/-- The constructor zero-initialises all resonator histories. -/
def resInit : ResState := ⟨0, 0, 0, 0⟩

/-- All four stored history values lie in [-1, 1]. -/
def ResState.bounded (s : ResState) : Prop :=
  (-1 ≤ s.y1 ∧ s.y1 ≤ 1) ∧ (-1 ≤ s.y2 ∧ s.y2 ≤ 1) ∧
    (-1 ≤ s.ry1 ∧ s.ry1 ≤ 1) ∧ (-1 ≤ s.iy1 ∧ s.iy1 ≤ 1)

lemma neg_one_le_clamp (v : ℝ) : -1 ≤ clamp v (-1) 1 := le_max_left _ _

lemma clamp_le_one (v : ℝ) : clamp v (-1) 1 ≤ 1 :=
  max_le (by norm_num) (min_le_left _ _)

lemma resStep_bounded (k : ResStepCoeff) (x : ℝ) (s : ResState)
    (h : s.bounded) : (resStep k x s).bounded := by
  obtain ⟨h1, _, _, _⟩ := h
  exact ⟨⟨neg_one_le_clamp _, clamp_le_one _⟩, h1,
    ⟨neg_one_le_clamp _, clamp_le_one _⟩, ⟨neg_one_le_clamp _, clamp_le_one _⟩⟩

lemma resRun_bounded (steps : List (ResStepCoeff × ℝ)) (s : ResState)
    (h : s.bounded) :
    (steps.foldl (fun st kx => resStep kx.1 kx.2 st) s).bounded := by
  induction steps generalizing s with
  | nil => exact h
  | cons kx rest ih => exact ih _ (resStep_bounded kx.1 kx.2 s h)

/-- Claim C2: starting from the zero-initialised history, after every
processed sample — every sequence of inputs and per-sample coefficient
values — the stored resonator state (2-pole history y1, y2 and complex
one-pole history ry1, iy1) lies in [-1, 1], because the update clamps the
newly computed outputs before storing them.  The same update shape is
used for the noise path and for the rain path of every branch. -/
theorem C2_state_bounded (steps : List (ResStepCoeff × ℝ)) :
    (steps.foldl (fun st kx => resStep kx.1 kx.2 st) resInit).bounded :=
  resRun_bounded steps resInit
    ⟨by norm_num [resInit], by norm_num [resInit], by norm_num [resInit],
     by norm_num [resInit]⟩

/-! ## Parameter smoothing -/

/-- The smoothed value after n applications of smoothToward with a held
target, starting from s0 (the per-sample Smoother on a branch). -/
noncomputable def smoothIter (target alpha s0 : ℝ) : ℕ → ℝ
  | 0 => s0
  | n + 1 => smoothToward (smoothIter target alpha s0 n) target alpha

lemma smoothToward_error (s target alpha : ℝ) :
    target - smoothToward s target alpha = (target - s) * (1 - alpha) := by
  unfold smoothToward
  by_cases h : s = target
  · simp [h]
  · rw [if_neg h]; ring

lemma smoothIter_closed_form (target alpha s0 : ℝ) (n : ℕ) :
    target - smoothIter target alpha s0 n = (target - s0) * (1 - alpha) ^ n := by
  induction n with
  | zero => simp [smoothIter]
  | succ n ih => rw [smoothIter, smoothToward_error, ih]; ring

/-- Claim C6: after a step change to a held target, the smoothed frequency
obtained by iterating smoothToward with alphaFreq satisfies the closed
form |target - smooth(n)| = |target - smooth(0)| * (1 - alphaFreq)^n, the
error is monotonically non-increasing, and it lands within 0.01 Hz after
some N determined by alphaFreq. -/
theorem C6_smoothing_convergence (target s0 : ℝ) :
    (∀ n : ℕ, |target - smoothIter target alphaFreq s0 n|
        = |target - s0| * (1 - alphaFreq) ^ n) ∧
    (∀ n : ℕ, |target - smoothIter target alphaFreq s0 (n + 1)|
        ≤ |target - smoothIter target alphaFreq s0 n|) ∧
    (∃ N : ℕ, ∀ n : ℕ, N ≤ n → |target - smoothIter target alphaFreq s0 n| ≤ 0.01) := by
  have hq0 : (0:ℝ) ≤ 1 - alphaFreq := by norm_num [alphaFreq]
  have hq1 : (1:ℝ) - alphaFreq < 1 := by norm_num [alphaFreq]
  have habs : ∀ n : ℕ, |target - smoothIter target alphaFreq s0 n|
      = |target - s0| * (1 - alphaFreq) ^ n := by
    intro n
    rw [smoothIter_closed_form, abs_mul, abs_pow, abs_of_nonneg hq0]
  refine ⟨habs, ?_, ?_⟩
  · intro n
    rw [habs, habs]
    exact mul_le_mul_of_nonneg_left
      (pow_le_pow_of_le_one hq0 hq1.le (Nat.le_succ n)) (abs_nonneg _)
  · by_cases h0 : target - s0 = 0
    · exact ⟨0, fun n _ => by rw [habs, h0, abs_zero, zero_mul]; norm_num⟩
    · have hpos : 0 < |target - s0| := abs_pos.mpr h0
      obtain ⟨N, hN⟩ := exists_pow_lt_of_lt_one
        (div_pos (by norm_num : (0:ℝ) < 0.01) hpos) hq1
      refine ⟨N, fun n hn => ?_⟩
      rw [habs]
      have h1 : (1 - alphaFreq) ^ n ≤ (1 - alphaFreq) ^ N :=
        pow_le_pow_of_le_one hq0 hq1.le hn
      have h2 : |target - s0| * (1 - alphaFreq) ^ n ≤ |target - s0| * ((0.01:ℝ) / |target - s0|) :=
        mul_le_mul_of_nonneg_left (h1.trans hN.le) (abs_nonneg _)
      calc |target - s0| * (1 - alphaFreq) ^ n
          ≤ |target - s0| * ((0.01:ℝ) / |target - s0|) := h2
        _ = 0.01 := by field_simp

/-! ## Scale quantizer -/

/-- noteNameToClass from the source: C..B with sharps, tolerant of
enharmonics, defaulting to A (= 9) for unknown names. -/
def noteNameToClass (name : String) : ℤ :=
  if name = "C" then 0 else if name = "C#" then 1 else if name = "Db" then 1
  else if name = "D" then 2 else if name = "D#" then 3 else if name = "Eb" then 3
  else if name = "E" then 4 else if name = "Fb" then 4 else if name = "E#" then 5
  else if name = "F" then 5 else if name = "F#" then 6 else if name = "Gb" then 6
  else if name = "G" then 7 else if name = "G#" then 8 else if name = "Ab" then 8
  else if name = "A" then 9 else if name = "A#" then 10 else if name = "Bb" then 10
  else if name = "B" then 11 else if name = "Cb" then 11 else if name = "B#" then 0
  else 9

/-- The fixed scale-interval table from computePitchClasses; an unknown
scale name yields none (the JS table lookup returning null). -/
def scaleIntervals (name : String) : Option (List ℤ) :=
  if name = "chromatic" then some [0, 1, 2, 3, 4, 5, 6, 7, 8, 9, 10, 11]
  else if name = "major" then some [0, 2, 4, 5, 7, 9, 11]
  else if name = "minor" then some [0, 2, 3, 5, 7, 8, 10]
  else if name = "harmonicMinor" then some [0, 2, 3, 5, 7, 8, 11]
  else if name = "melodicMinor" then some [0, 2, 3, 5, 7, 9, 11]
  else if name = "dorian" then some [0, 2, 3, 5, 7, 9, 10]
  else if name = "phrygian" then some [0, 1, 3, 5, 7, 8, 10]
  else if name = "lydian" then some [0, 2, 4, 6, 7, 9, 11]
  else if name = "mixolydian" then some [0, 2, 4, 5, 7, 9, 10]
  else if name = "locrian" then some [0, 1, 3, 5, 6, 8, 10]
  else if name = "pentatonicMajor" then some [0, 2, 4, 7, 9]
  else if name = "pentatonicMinor" then some [0, 3, 5, 7, 10]
  else if name = "blues" then some [0, 3, 5, 6, 7, 10]
  else if name = "wholeTone" then some [0, 2, 4, 6, 8, 10]
  else if name = "octatonic12" then some [0, 1, 3, 4, 6, 7, 9, 10]
  else if name = "octatonic21" then some [0, 2, 3, 5, 6, 8, 9, 11]
  else none

/-- computePitchClasses(scaleName, rootName): none for an empty or "off"
scale name or an unknown scale; otherwise the root-transposed interval
set, de-duplicated and sorted ascending (Array.from(new Set(...)).sort).
The empty-string cases model the JS falsy-value defaults. -/
def computePitchClasses (scaleName rootName : String) : Option (List ℤ) :=
  if scaleName = "" ∨ scaleName = "off" then none
  else
    let root := noteNameToClass (if rootName = "" then "A" else rootName)
    match scaleIntervals scaleName with
    | none => none
    | some base =>
        some (List.insertionSort (fun a b => a ≤ b)
          ((base.map (fun iv => (root + iv) % 12)).dedup))

/-- Math.round for the values this code feeds it: round half toward
positive infinity. -/
noncomputable def jsRound (x : ℝ) : ℤ := ⌊x + 1 / 2⌋

/-- Fractional MIDI number of a frequency: 69 + 12*log2(f/440). -/
noncomputable def midiOf (f : ℝ) : ℝ := 69 + 12 * Real.logb 2 (f / 440)

/-- 12-TET frequency of an integer MIDI number: 440 * 2^((m-69)/12). -/
noncomputable def freqOfMidi (m : ℤ) : ℝ := 440 * (2:ℝ) ^ (((m : ℝ) - 69) / 12)

/-- Pitch class ((m % 12) + 12) % 12 with the truncating JS remainder. -/
def pcOf (m : ℤ) : ℤ := (m.tmod 12 + 12).tmod 12

/-- The outward search of quantizeToScale: for d = 0, 1, 2, ... check
roundMidi + d then roundMidi - d against the allowed pitch classes and
stop at the first hit; the JS loop runs d = 0..12 (fuel 13) and leaves
bestMidi = roundMidi when nothing was found. -/
def searchAux (pcs : List ℤ) (roundMidi : ℤ) : ℕ → ℤ → ℤ
  | 0, _ => roundMidi
  | fuel + 1, d =>
    if pcOf (roundMidi + d) ∈ pcs then roundMidi + d
    else if pcOf (roundMidi - d) ∈ pcs then roundMidi - d
    else searchAux pcs roundMidi fuel (d + 1)

/-- bestMidi of the source's search loop (d from 0 to 12 inclusive). -/
def bestMidiFor (pcs : List ℤ) (roundMidi : ℤ) : ℤ := searchAux pcs roundMidi 13 0

/-- quantizeToScale(freqHz, pitchClasses) from the source: 0 for
non-positive input; otherwise round the fractional MIDI value, return the
12-TET frequency directly when the pitch class is allowed
(indexOf ≠ -1), else the frequency of the nearest allowed MIDI found by
the outward search. -/
noncomputable def quantizeToScale (f : ℝ) (pcs : List ℤ) : ℝ :=
  if f ≤ 0 then 0
  else
    if pcOf (jsRound (midiOf f)) ∈ pcs then freqOfMidi (jsRound (midiOf f))
    else freqOfMidi (bestMidiFor pcs (jsRound (midiOf f)))

lemma quantize_nonpos {f : ℝ} (pcs : List ℤ) (hf : f ≤ 0) :
    quantizeToScale f pcs = 0 := by
  unfold quantizeToScale
  rw [if_pos hf]

lemma quantize_pos_mem {f : ℝ} {pcs : List ℤ} (hf : ¬ f ≤ 0)
    (h : pcOf (jsRound (midiOf f)) ∈ pcs) :
    quantizeToScale f pcs = freqOfMidi (jsRound (midiOf f)) := by
  unfold quantizeToScale
  rw [if_neg hf, if_pos h]

lemma quantize_pos_not_mem {f : ℝ} {pcs : List ℤ} (hf : ¬ f ≤ 0)
    (h : pcOf (jsRound (midiOf f)) ∉ pcs) :
    quantizeToScale f pcs = freqOfMidi (bestMidiFor pcs (jsRound (midiOf f))) := by
  unfold quantizeToScale
  rw [if_neg hf, if_neg h]

lemma freqOfMidi_pos (m : ℤ) : 0 < freqOfMidi m := by
  unfold freqOfMidi
  positivity

lemma midiOf_freqOfMidi (m : ℤ) : midiOf (freqOfMidi m) = m := by
  unfold midiOf freqOfMidi
  rw [show (440:ℝ) * (2:ℝ) ^ (((m : ℝ) - 69) / 12) / 440
      = (2:ℝ) ^ (((m : ℝ) - 69) / 12) from by ring,
    Real.logb_rpow (by norm_num) (by norm_num)]
  ring

lemma jsRound_intCast (m : ℤ) : jsRound ((m : ℝ)) = m := by
  unfold jsRound
  rw [Int.floor_int_add]
  norm_num

/-- The search either finds an allowed pitch class or returns roundMidi. -/
lemma searchAux_self (pcs : List ℤ) (roundMidi : ℤ) (fuel : ℕ) (d : ℤ)
    (h : pcOf (searchAux pcs roundMidi fuel d) ∉ pcs) :
    searchAux pcs roundMidi fuel d = roundMidi := by
  induction fuel generalizing d with
  | zero => rfl
  | succ n ih =>
    unfold searchAux at h ⊢
    by_cases h1 : pcOf (roundMidi + d) ∈ pcs
    · rw [if_pos h1] at h
      exact absurd h1 h
    · rw [if_neg h1] at h ⊢
      by_cases h2 : pcOf (roundMidi - d) ∈ pcs
      · rw [if_pos h2] at h
        exact absurd h2 h
      · rw [if_neg h2] at h ⊢
        exact ih _ h

/-- quantizeToScale is idempotent for every input and pitch-class list. -/
lemma quantizeToScale_idem (f : ℝ) (pcs : List ℤ) :
    quantizeToScale (quantizeToScale f pcs) pcs = quantizeToScale f pcs := by
  by_cases hf : f ≤ 0
  · rw [quantize_nonpos pcs hf, quantize_nonpos pcs le_rfl]
  · have hround : ∀ m : ℤ, jsRound (midiOf (freqOfMidi m)) = m := fun m => by
      rw [midiOf_freqOfMidi, jsRound_intCast]
    by_cases hm : pcOf (jsRound (midiOf f)) ∈ pcs
    · rw [quantize_pos_mem hf hm]
      have hpos : ¬ freqOfMidi (jsRound (midiOf f)) ≤ 0 :=
        not_le.mpr (freqOfMidi_pos _)
      rw [quantize_pos_mem hpos (by rw [hround]; exact hm), hround]
    · rw [quantize_pos_not_mem hf hm]
      set b := bestMidiFor pcs (jsRound (midiOf f)) with hb
      have hpos : ¬ freqOfMidi b ≤ 0 := not_le.mpr (freqOfMidi_pos _)
      by_cases hbm : pcOf b ∈ pcs
      · rw [quantize_pos_mem hpos (by rw [hround]; exact hbm), hround]
      · have hself : b = jsRound (midiOf f) := searchAux_self pcs _ 13 0 hbm
        have hbb : bestMidiFor pcs b = b := by
          conv_lhs => rw [hself]
        rw [quantize_pos_not_mem hpos (by rw [hround]; exact hbm), hround, hbb]

/-- Claim C3: quantizeToScale is idempotent: for every positive frequency
and every pitch-class set produced by computePitchClasses (any scale name
and root), applying the quantizer twice equals applying it once; in
particular a frequency already on an allowed pitch class is a fixed
point. -/
theorem C3_quantize_idempotent (f : ℝ) (hf : 0 < f) (scaleName rootName : String)
    (pcs : List ℤ) (hpcs : computePitchClasses scaleName rootName = some pcs) :
    quantizeToScale (quantizeToScale f pcs) pcs = quantizeToScale f pcs :=
  quantizeToScale_idem f pcs

/-- Witness for C3 at 440 Hz against C major. -/
theorem C3_witness :
    quantizeToScale (quantizeToScale 440 [0, 2, 4, 5, 7, 9, 11]) [0, 2, 4, 5, 7, 9, 11]
      = quantizeToScale 440 [0, 2, 4, 5, 7, 9, 11] :=
  C3_quantize_idempotent 440 (by norm_num) "major" "C" [0, 2, 4, 5, 7, 9, 11] (by decide)

lemma jsRound_midi_466 : jsRound (midiOf (466.16 : ℝ)) = 70 := by
  have hx : (0:ℝ) < 466.16 / 440 := by norm_num
  have hlow : (2:ℝ) ^ ((1:ℝ) / 24) ≤ 466.16 / 440 := by
    have h1 : ((2:ℝ) ^ ((1:ℝ) / 24)) ^ (24:ℕ) = 2 := by
      rw [← Real.rpow_natCast ((2:ℝ) ^ ((1:ℝ) / 24)) 24,
        ← Real.rpow_mul (by norm_num : (0:ℝ) ≤ 2)]
      norm_num
    have h2 : ((2:ℝ) ^ ((1:ℝ) / 24)) ^ (24:ℕ) ≤ (466.16 / 440 : ℝ) ^ (24:ℕ) := by
      rw [h1]; norm_num
    exact (pow_le_pow_iff_left₀ (Real.rpow_nonneg (by norm_num) _) hx.le
      (by norm_num)).mp h2
  have hhigh : (466.16 / 440 : ℝ) < 2 ^ ((1:ℝ) / 8) := by
    have h1 : ((2:ℝ) ^ ((1:ℝ) / 8)) ^ (8:ℕ) = 2 := by
      rw [← Real.rpow_natCast ((2:ℝ) ^ ((1:ℝ) / 8)) 8,
        ← Real.rpow_mul (by norm_num : (0:ℝ) ≤ 2)]
      norm_num
    have h2 : (466.16 / 440 : ℝ) ^ (8:ℕ) < ((2:ℝ) ^ ((1:ℝ) / 8)) ^ (8:ℕ) := by
      rw [h1]; norm_num
    exact (pow_lt_pow_iff_left₀ hx.le (Real.rpow_nonneg (by norm_num) _)
      (by norm_num)).mp h2
  have hL1 : (1:ℝ) / 24 ≤ Real.logb 2 (466.16 / 440) :=
    (Real.le_logb_iff_rpow_le one_lt_two hx).mpr hlow
  have hL2 : Real.logb 2 (466.16 / 440) < (1:ℝ) / 8 :=
    (Real.logb_lt_iff_lt_rpow one_lt_two hx).mpr hhigh
  unfold jsRound midiOf
  apply Int.floor_eq_iff.mpr
  constructor
  · push_cast
    nlinarith [hL1]
  · push_cast
    nlinarith [hL2]

/-- Claim C4: quantizing 466.16 Hz (A#4, pitch class 10) to the C-major
pitch-class set returns exactly 440 * 2^(2/12) (B4, roughly 493.88 Hz):
class 10 is not allowed, classes 9 and 11 tie at semitone distance 1, and
the outward search checks the upward direction first, so the tie resolves
upward to B. -/
theorem C4_tie_resolves_upward :
    computePitchClasses "major" "C" = some [0, 2, 4, 5, 7, 9, 11] ∧
    quantizeToScale 466.16 [0, 2, 4, 5, 7, 9, 11] = 440 * (2:ℝ) ^ ((2:ℝ) / 12) := by
  refine ⟨by decide, ?_⟩
  have hnm : pcOf (jsRound (midiOf (466.16:ℝ))) ∉ ([0, 2, 4, 5, 7, 9, 11] : List ℤ) := by
    rw [jsRound_midi_466]; decide
  rw [quantize_pos_not_mem (by norm_num) hnm, jsRound_midi_466]
  have hbest : bestMidiFor [0, 2, 4, 5, 7, 9, 11] 70 = 71 := by decide
  rw [hbest]
  unfold freqOfMidi
  push_cast
  norm_num

/-! ## Raindrop envelopes and branch grouping -/

/-- Per-sample rain envelope decay coefficient:
exp(-1 / max(1, rainDurMs * 0.001 * sampleRate)). -/
noncomputable def rainDecayCoef (sr rainDurMs : ℝ) : ℝ :=
  Real.exp (-1 / max 1 (rainDurMs * 0.001 * sr))

/-- The per-sample decay loop over the rain envelopes:
for di = 0 .. nBranches-1, rainEnv[di] *= rainDecay; entries at or above
nBranches are not touched. -/
def rainDecayStep (nBranches : ℕ) (coef : ℝ) (env : ℕ → ℝ) : ℕ → ℝ :=
  fun i => if i < nBranches then env i * coef else env i

/-- The per-branch rain excitation sample, rainGain * rainEnv[b]. -/
def rainExcitation (rainGain : ℝ) (env : ℕ → ℝ) (b : ℕ) : ℝ := rainGain * env b

/-- splitIdxBlock = Math.max(0, Math.min(nBranches, groupSplitCount)). -/
def splitIdxOf (nBranches groupSplitCount : ℕ) : ℕ := max 0 (min nBranches groupSplitCount)

/-- The per-branch excitation routing of the process loop: with grouping
enabled, branches below the split get (exciterNoise, 0) and the others
(0, rainInput); without grouping both paths are fed. -/
def groupInputs (groupEnabled : Bool) (splitIdx b : ℕ)
    (exciterNoise rainInput : ℝ) : ℝ × ℝ :=
  if groupEnabled then
    if b < splitIdx then (exciterNoise, 0) else (0, rainInput)
  else (exciterNoise, rainInput)

/-- The raindrop trigger's clamp of the Gaussian-drawn branch index to
[0, nBranches). -/
def clampIdx (nBranches idx : ℤ) : ℤ :=
  if idx < 0 then 0 else if nBranches ≤ idx then nBranches - 1 else idx

/-- The grouping redirect of the raindrop trigger: an index below the
split is remapped to splitIdx + (idx % max(1, nBranches - splitIdx)),
re-clamped to nBranches - 1 (JS % is the truncating remainder, tmod). -/
def redirectRainIdx (nBranches splitIdx idx : ℤ) : ℤ :=
  if idx < splitIdx then
    if nBranches ≤ splitIdx + idx.tmod (max 1 (nBranches - splitIdx)) then nBranches - 1
    else splitIdx + idx.tmod (max 1 (nBranches - splitIdx))
  else idx

/-- The branch index a raindrop impulse is deposited at, with grouping
enabled: Gaussian draw clamped to range, then redirected. -/
def rainTriggerIdx (nBranches splitIdx rawIdx : ℤ) : ℤ :=
  redirectRainIdx nBranches splitIdx (clampIdx nBranches rawIdx)

/-- One excitation path of one branch: the bandpass delay line
(bp*_x1, x2, y1, y2) followed by the resonator pair histories. -/
structure PathState where
  bp_x1 : ℝ
  bp_x2 : ℝ
  bp_y1 : ℝ
  bp_y2 : ℝ
  two_y1 : ℝ
  two_y2 : ℝ
  c_ry1 : ℝ
  c_iy1 : ℝ

/-- The coefficients one path step reads: RBJ bandpass b0,b1,b2,a1,a2 and
resonator two_a, two_b, two_c, c_rcos, c_rsin. -/
structure PathCoeff where
  b0 : ℝ
  b1 : ℝ
  b2 : ℝ
  a1 : ℝ
  a2 : ℝ
  ta : ℝ
  tb : ℝ
  tc : ℝ
  rcos : ℝ
  rsin : ℝ

/-- One sample of one excitation path from the process loop: bandpass the
input, run both resonators (clamped), and produce the crossfaded output
(1 - mix) * twoPole + mix * complexReal. -/
def pathStep (k : PathCoeff) (mix inp : ℝ) (s : PathState) : PathState × ℝ :=
  let xbp := k.b0 * inp + k.b1 * s.bp_x1 + k.b2 * s.bp_x2 - k.a1 * s.bp_y1 - k.a2 * s.bp_y2
  let y1n := clamp (k.ta * xbp + k.tb * s.two_y1 + k.tc * s.two_y2) (-1) 1
  let ryn := clamp (xbp * 0.02 + k.rcos * s.c_ry1 - k.rsin * s.c_iy1) (-1) 1
  let iyn := clamp (k.rsin * s.c_ry1 + k.rcos * s.c_iy1) (-1) 1
  (⟨inp, s.bp_x1, xbp, s.bp_y1, y1n, s.two_y1, ryn, iyn⟩,
   (1 - mix) * y1n + mix * ryn)

/-- The all-zero path state the constructor creates. -/
def pathZero : PathState := ⟨0, 0, 0, 0, 0, 0, 0, 0⟩

/-- Run a path over a sequence of samples whose excitation input is zero,
with arbitrary per-sample coefficients and mix, collecting the outputs. -/
def runPathZero : List (PathCoeff × ℝ) → PathState → PathState × List ℝ
  | [], s => (s, [])
  | km :: rest, s =>
      let step := pathStep km.1 km.2 0 s
      let next := runPathZero rest step.1
      (next.1, step.2 :: next.2)

lemma clamp_zero : clamp 0 (-1) 1 = 0 := by
  unfold clamp
  norm_num

lemma pathStep_zero (k : PathCoeff) (mix : ℝ) :
    pathStep k mix 0 pathZero = (pathZero, 0) := by
  unfold pathStep pathZero
  simp [clamp_zero]

lemma runPathZero_silent (steps : List (PathCoeff × ℝ)) :
    runPathZero steps pathZero = (pathZero, List.replicate steps.length 0) := by
  induction steps with
  | nil => rfl
  | cons km rest ih =>
    unfold runPathZero
    rw [pathStep_zero]
    simp only []
    rw [ih]
    rfl

/-- Claim C5: with grouping enabled, groupSplit 4 and 8 branches, every
branch below the split receives zero rain excitation and every branch at
or above it receives zero noise excitation; a path whose excitation input
is zero stays in the all-zero state and contributes only silence to its
output bus at every sample; and the raindrop trigger never deposits an
impulse at an index below the split. -/
theorem C5_grouping_split :
    splitIdxOf 8 4 = 4 ∧
    (∀ b : ℕ, b < 4 → ∀ xn xr : ℝ, (groupInputs true (splitIdxOf 8 4) b xn xr).2 = 0) ∧
    (∀ b : ℕ, 4 ≤ b → b < 8 → ∀ xn xr : ℝ, (groupInputs true (splitIdxOf 8 4) b xn xr).1 = 0) ∧
    (∀ steps : List (PathCoeff × ℝ),
      runPathZero steps pathZero = (pathZero, List.replicate steps.length 0)) ∧
    (∀ rawIdx : ℤ, 4 ≤ rainTriggerIdx 8 4 rawIdx ∧ rainTriggerIdx 8 4 rawIdx < 8) := by
  refine ⟨rfl, ?_, ?_, runPathZero_silent, ?_⟩
  · intro b hb xn xr
    simp [groupInputs, splitIdxOf, hb]
  · intro b hb1 hb2 xn xr
    have hnb : ¬ b < splitIdxOf 8 4 := by
      simp only [splitIdxOf]
      omega
    simp [groupInputs, hnb]
  · intro rawIdx
    have hj : 0 ≤ clampIdx 8 rawIdx ∧ clampIdx 8 rawIdx < 8 := by
      unfold clampIdx
      split_ifs <;> omega
    unfold rainTriggerIdx
    set j := clampIdx 8 rawIdx with hjdef
    clear_value j
    obtain ⟨hj0, hj8⟩ := hj
    interval_cases j <;> decide

/-- The claim of C8 as stated is false: with 8 live branches, the rain
envelope entry at index 8 (a valid MAX_BRANCHES slot beyond the live
count) is left unchanged by the per-sample decay loop, not multiplied by
the decay coefficient (which is strictly below 1). -/
theorem C8_counterexample :
    8 < MAX_BRANCHES ∧
    rainDecayStep 8 (rainDecayCoef 48000 8) (fun _ => (1:ℝ)) 8 = 1 ∧
    rainDecayCoef 48000 8 * 1 < 1 := by
  refine ⟨by norm_num [MAX_BRANCHES], by simp [rainDecayStep], ?_⟩
  rw [mul_one]
  unfold rainDecayCoef
  apply Real.exp_lt_one_iff.mpr
  apply div_neg_of_neg_of_pos (by norm_num)
  exact lt_of_lt_of_le one_pos (le_max_left _ _)

/-- Claim C8 amended: on every processed sample, each of the nBranches
live rain envelope entries is multiplied by the geometric decay
coefficient exp(-1 / (rainDurMs * 0.001 * sampleRate)) — a value strictly
between 0 and 1, so those envelopes decay toward zero — while entries at
or above nBranches are left unchanged; the per-branch rain excitation
sample equals rainGain * rainEnv[branch]. -/
theorem C8_rain_decay_live_branches :
    (∀ (n : ℕ) (coef : ℝ) (env : ℕ → ℝ) (i : ℕ), i < n →
      rainDecayStep n coef env i = env i * coef) ∧
    (∀ (n : ℕ) (coef : ℝ) (env : ℕ → ℝ) (i : ℕ), n ≤ i →
      rainDecayStep n coef env i = env i) ∧
    (∀ sr dur : ℝ, 0 < rainDecayCoef sr dur ∧ rainDecayCoef sr dur < 1) ∧
    (∀ (g : ℝ) (env : ℕ → ℝ) (b : ℕ), rainExcitation g env b = g * env b) := by
  refine ⟨?_, ?_, ?_, fun g env b => rfl⟩
  · intro n coef env i hi
    simp [rainDecayStep, hi]
  · intro n coef env i hi
    simp [rainDecayStep, Nat.not_lt.mpr hi]
  · intro sr dur
    refine ⟨Real.exp_pos _, ?_⟩
    apply Real.exp_lt_one_iff.mpr
    apply div_neg_of_neg_of_pos (by norm_num)
    exact lt_of_lt_of_le one_pos (le_max_left _ _)

/-! ## Engine state and control messages -/

/-- The per-branch arrays of the processor relevant to parameter
handling, modelled as functions from branch index, plus the cached scale
state.  The bandpass coefficient/delay arrays behave exactly like the
resonator histories here (the message handlers never reference them) and
are modelled by the PathState embedding above. -/
structure EngineState where
  branchFreqHz : ℕ → ℝ
  branchDecayMs : ℕ → ℝ
  branchAmp : ℕ → ℝ
  branchPan : ℕ → ℝ
  smoothFreqHz : ℕ → ℝ
  smoothAmp : ℕ → ℝ
  smoothPan : ℕ → ℝ
  leftPanGain : ℕ → ℝ
  rightPanGain : ℕ → ℝ
  cachedEffFreq : ℕ → ℝ
  cachedEffDecay : ℕ → ℝ
  two_a : ℕ → ℝ
  two_b : ℕ → ℝ
  two_c : ℕ → ℝ
  c_r : ℕ → ℝ
  c_rcos : ℕ → ℝ
  c_rsin : ℕ → ℝ
  twoN_y1 : ℕ → ℝ
  twoN_y2 : ℕ → ℝ
  cN_ry1 : ℕ → ℝ
  cN_iy1 : ℕ → ℝ
  twoR_y1 : ℕ → ℝ
  twoR_y2 : ℕ → ℝ
  cR_ry1 : ℕ → ℝ
  cR_iy1 : ℕ → ℝ
  rainEnv : ℕ → ℝ
  scalePitchClasses : Option (List ℤ)

/-- updatePanGains(index): equal-power pan gains from the clamped
smoothed pan, leftPanGain = cos(t*pi/2), rightPanGain = sin(t*pi/2) with
t = (pan + 1) * 0.5. -/
noncomputable def updatePanGains (i : ℕ) (s : EngineState) : EngineState :=
  { s with
    leftPanGain := Function.update s.leftPanGain i
      (Real.cos ((clamp (s.smoothPan i) (-1) 1 + 1) * 0.5 * Real.pi * 0.5)),
    rightPanGain := Function.update s.rightPanGain i
      (Real.sin ((clamp (s.smoothPan i) (-1) 1 + 1) * 0.5 * Real.pi * 0.5)) }

/-- A setBranchParams message: the branch index and the partial params
object; a field is none when params lacks it (typeof check fails). -/
structure BranchParamsMsg where
  index : ℤ
  freq : Option ℝ
  decay : Option ℝ
  amp : Option ℝ
  pan : Option ℝ

/-- if (typeof params.freq === 'number') branchFreqHz[index] = params.freq. -/
def applyFreqMsg (i : ℕ) (v : Option ℝ) (s : EngineState) : EngineState :=
  match v with
  | some x => { s with branchFreqHz := Function.update s.branchFreqHz i x }
  | none => s

/-- if (typeof params.decay === 'number') branchDecayMs[index] = max(1, decay). -/
def applyDecayMsg (i : ℕ) (v : Option ℝ) (s : EngineState) : EngineState :=
  match v with
  | some x => { s with branchDecayMs := Function.update s.branchDecayMs i (max 1 x) }
  | none => s

/-- if (typeof params.amp === 'number') branchAmp[index] = max(0, amp). -/
def applyAmpMsg (i : ℕ) (v : Option ℝ) (s : EngineState) : EngineState :=
  match v with
  | some x => { s with branchAmp := Function.update s.branchAmp i (max 0 x) }
  | none => s

/-- if (typeof params.pan === 'number'): branchPan[index] = clamp(pan),
smoothPan[index] = branchPan[index], then updatePanGains(index). -/
noncomputable def applyPanMsg (i : ℕ) (v : Option ℝ) (s : EngineState) : EngineState :=
  match v with
  | some x =>
      let s1 : EngineState := { s with branchPan := Function.update s.branchPan i (clamp x (-1) 1) }
      let s2 : EngineState := { s1 with smoothPan := Function.update s1.smoothPan i (s1.branchPan i) }
      updatePanGains i s2
  | none => s

/-- The setBranchParams handler: guarded by
index >= 0 && index < MAX_BRANCHES && params; out-of-range messages fall
through with no effect and nothing is posted back to the host (the
handler's only effect is the returned state). -/
noncomputable def handleSetBranchParams (msg : BranchParamsMsg) (s : EngineState) : EngineState :=
  if 0 ≤ msg.index ∧ msg.index < (MAX_BRANCHES : ℤ) then
    applyPanMsg msg.index.toNat msg.pan
      (applyAmpMsg msg.index.toNat msg.amp
        (applyDecayMsg msg.index.toNat msg.decay
          (applyFreqMsg msg.index.toNat msg.freq s)))
  else s

/-- One entry of a setAllBranches message (arr[i] || with defaults). -/
structure BranchSpec where
  freq : Option ℝ
  decay : Option ℝ
  amp : Option ℝ
  pan : Option ℝ

/-- One iteration of the setAllBranches loop: targets with defaults,
smoothed values snapped, pan gains updated, cached values zeroed to force
a coefficient recompute. -/
noncomputable def setAllStep (i : ℕ) (p : BranchSpec) (s : EngineState) : EngineState :=
  let fv : ℝ := match p.freq with | some x => x | none => 440
  let dv : ℝ := match p.decay with | some x => max 1 x | none => 400
  let av : ℝ := match p.amp with | some x => max 0 x | none => 0.02
  let pv : ℝ := match p.pan with | some x => clamp x (-1) 1 | none => 0
  let s1 : EngineState := { s with
    branchFreqHz := Function.update s.branchFreqHz i fv,
    branchDecayMs := Function.update s.branchDecayMs i dv,
    branchAmp := Function.update s.branchAmp i av,
    branchPan := Function.update s.branchPan i pv }
  let s2 : EngineState := { s1 with
    smoothFreqHz := Function.update s1.smoothFreqHz i (s1.branchFreqHz i),
    smoothAmp := Function.update s1.smoothAmp i (s1.branchAmp i),
    smoothPan := Function.update s1.smoothPan i (s1.branchPan i) }
  let s3 : EngineState := updatePanGains i s2
  { s3 with
    cachedEffFreq := Function.update s3.cachedEffFreq i 0,
    cachedEffDecay := Function.update s3.cachedEffDecay i 0 }

/-- The setAllBranches handler: the loop runs for
count = min(arr.length, MAX_BRANCHES) entries. -/
noncomputable def handleSetAllBranches (arr : List BranchSpec) (s : EngineState) : EngineState :=
  ((arr.take MAX_BRANCHES).enum).foldl (fun st ip => setAllStep ip.1 ip.2 st) s

/-- The engine state after the constructor: arrays allocated zeroed and
no scale set. -/
def zeroEngineState : EngineState :=
  ⟨fun _ => 0, fun _ => 0, fun _ => 0, fun _ => 0, fun _ => 0, fun _ => 0,
   fun _ => 0, fun _ => 0, fun _ => 0, fun _ => 0, fun _ => 0, fun _ => 0,
   fun _ => 0, fun _ => 0, fun _ => 0, fun _ => 0, fun _ => 0, fun _ => 0,
   fun _ => 0, fun _ => 0, fun _ => 0, fun _ => 0, fun _ => 0, fun _ => 0,
   fun _ => 0, fun _ => 0, none⟩

/-- One iteration of the constructor's defaults loop for branch i:
targets 440 Hz / 400 ms / 0.02 / pan 0, smoothed values snapped,
updatePanGains(i), cached values zeroed, recomputeCoefficients(i, 440,
400), and all per-path histories zeroed. -/
noncomputable def initBranch (sr : ℝ) (i : ℕ) (s : EngineState) : EngineState :=
  let s1 : EngineState := { s with
    branchFreqHz := Function.update s.branchFreqHz i 440,
    branchDecayMs := Function.update s.branchDecayMs i 400,
    branchAmp := Function.update s.branchAmp i 0.02,
    branchPan := Function.update s.branchPan i 0 }
  let s2 : EngineState := { s1 with
    smoothFreqHz := Function.update s1.smoothFreqHz i (s1.branchFreqHz i),
    smoothAmp := Function.update s1.smoothAmp i (s1.branchAmp i),
    smoothPan := Function.update s1.smoothPan i (s1.branchPan i) }
  let s3 : EngineState := updatePanGains i s2
  let s4 : EngineState := { s3 with
    cachedEffFreq := Function.update s3.cachedEffFreq i 0,
    cachedEffDecay := Function.update s3.cachedEffDecay i 0,
    two_a := Function.update s3.two_a i (recomputeCoefficients sr 440 400).a,
    two_b := Function.update s3.two_b i (recomputeCoefficients sr 440 400).b,
    two_c := Function.update s3.two_c i (recomputeCoefficients sr 440 400).c,
    c_r := Function.update s3.c_r i (recomputeCoefficients sr 440 400).r,
    c_rcos := Function.update s3.c_rcos i (recomputeCoefficients sr 440 400).rcos,
    c_rsin := Function.update s3.c_rsin i (recomputeCoefficients sr 440 400).rsin }
  { s4 with
    twoN_y1 := Function.update s4.twoN_y1 i 0,
    twoN_y2 := Function.update s4.twoN_y2 i 0,
    cN_ry1 := Function.update s4.cN_ry1 i 0,
    cN_iy1 := Function.update s4.cN_iy1 i 0,
    twoR_y1 := Function.update s4.twoR_y1 i 0,
    twoR_y2 := Function.update s4.twoR_y2 i 0,
    cR_ry1 := Function.update s4.cR_ry1 i 0,
    cR_iy1 := Function.update s4.cR_iy1 i 0 }

/-- The constructed engine state: the defaults loop run over all
MAX_BRANCHES branches. -/
noncomputable def initState (sr : ℝ) : EngineState :=
  (List.range MAX_BRANCHES).foldl (fun s i => initBranch sr i s) zeroEngineState

/-- Claim C9: a setBranchParams message whose index is outside
[0, MAX_BRANCHES) is ignored: the whole engine state is returned
unchanged, and no error is reported to the host (the handler has no
output other than the state). -/
theorem C9_bad_index_ignored (s : EngineState) (msg : BranchParamsMsg)
    (h : msg.index < 0 ∨ (MAX_BRANCHES : ℤ) ≤ msg.index) :
    handleSetBranchParams msg s = s := by
  unfold handleSetBranchParams
  rw [if_neg]
  rintro ⟨h1, h2⟩
  rcases h with h | h
  · omega
  · omega

/-- Witness for C9: index 40 = MAX_BRANCHES is out of range. -/
theorem C9_witness :
    handleSetBranchParams ⟨40, none, none, none, some 1⟩ zeroEngineState = zeroEngineState :=
  C9_bad_index_ignored zeroEngineState ⟨40, none, none, none, some 1⟩
    (Or.inr (by norm_num [MAX_BRANCHES]))

/-- The claim of C7 as stated is false: a setBranchParams message that
specifies pan snaps smoothPan[index] to the new clamped pan immediately
(this.smoothPan[index] = this.branchPan[index] in the handler), so the
host does set a smoothed running value directly. -/
theorem C7_counterexample :
    (handleSetBranchParams ⟨0, none, none, none, some 1⟩ zeroEngineState).smoothPan 0 ≠
      zeroEngineState.smoothPan 0 := by
  have h : (handleSetBranchParams ⟨0, none, none, none, some 1⟩ zeroEngineState).smoothPan 0
      = 1 := by
    simp [handleSetBranchParams, MAX_BRANCHES, applyPanMsg, applyAmpMsg, applyDecayMsg,
      applyFreqMsg, updatePanGains, clamp, zeroEngineState]
  rw [h]
  norm_num [zeroEngineState]

/-- Claim C7 amended: handling setBranchParams never changes smoothFreqHz
or smoothAmp of any branch (those are mutated only by the per-sample
Smoother), and unspecified fields of the partial update retain their
previous values; but when pan is specified the handler, besides setting
the pan target, also snaps smoothPan[index] to the clamped new pan and
recomputes that branch's pan gains. -/
theorem C7_branch_msg_effects (msg : BranchParamsMsg) (s : EngineState) :
    (handleSetBranchParams msg s).smoothFreqHz = s.smoothFreqHz ∧
    (handleSetBranchParams msg s).smoothAmp = s.smoothAmp ∧
    (msg.freq = none → (handleSetBranchParams msg s).branchFreqHz = s.branchFreqHz) ∧
    (msg.decay = none → (handleSetBranchParams msg s).branchDecayMs = s.branchDecayMs) ∧
    (msg.amp = none → (handleSetBranchParams msg s).branchAmp = s.branchAmp) ∧
    (msg.pan = none → (handleSetBranchParams msg s).branchPan = s.branchPan ∧
      (handleSetBranchParams msg s).smoothPan = s.smoothPan ∧
      (handleSetBranchParams msg s).leftPanGain = s.leftPanGain ∧
      (handleSetBranchParams msg s).rightPanGain = s.rightPanGain) ∧
    (∀ x : ℝ, msg.pan = some x → 0 ≤ msg.index → msg.index < (MAX_BRANCHES : ℤ) →
      (handleSetBranchParams msg s).smoothPan
        = Function.update s.smoothPan msg.index.toNat (clamp x (-1) 1)) := by
  rcases msg with ⟨idx, f, d, a, p⟩
  by_cases hc : 0 ≤ idx ∧ idx < (MAX_BRANCHES : ℤ)
  · cases f <;> cases d <;> cases a <;> cases p <;>
      simp [handleSetBranchParams, hc, applyPanMsg, applyAmpMsg, applyDecayMsg,
        applyFreqMsg, updatePanGains, Function.update_same]
  · have hs : handleSetBranchParams ⟨idx, f, d, a, p⟩ s = s := by
      unfold handleSetBranchParams
      rw [if_neg hc]
    refine ⟨by rw [hs], by rw [hs], fun _ => by rw [hs], fun _ => by rw [hs],
      fun _ => by rw [hs], fun _ => ⟨by rw [hs], by rw [hs], by rw [hs], by rw [hs]⟩, ?_⟩
    intro x hx h1 h2
    exact absurd ⟨h1, h2⟩ hc

/-! ## Equal-power pan-gain invariant -/

/-- The equal-power identity for branch i's stored pan gains. -/
def gainsOK (s : EngineState) (i : ℕ) : Prop :=
  s.leftPanGain i ^ 2 + s.rightPanGain i ^ 2 = 1 ∧
    0 ≤ s.leftPanGain i ∧ 0 ≤ s.rightPanGain i

lemma gainsOK_of_eq {s t : EngineState} (i : ℕ) (hl : t.leftPanGain = s.leftPanGain)
    (hr : t.rightPanGain = s.rightPanGain) (h : gainsOK s i) : gainsOK t i := by
  unfold gainsOK at h ⊢
  rw [hl, hr]
  exact h

lemma updatePanGains_gainsOK_self (i : ℕ) (s : EngineState) :
    gainsOK (updatePanGains i s) i := by
  unfold gainsOK updatePanGains
  simp only [Function.update_same]
  have hm1 : -1 ≤ clamp (s.smoothPan i) (-1) 1 := neg_one_le_clamp _
  have h1 : clamp (s.smoothPan i) (-1) 1 ≤ 1 := clamp_le_one _
  have hπ := Real.pi_nonneg
  have hmul : (0:ℝ) ≤ Real.pi * (1 - clamp (s.smoothPan i) (-1) 1) :=
    mul_nonneg hπ (by linarith)
  have hmul2 : (0:ℝ) ≤ Real.pi * (clamp (s.smoothPan i) (-1) 1 + 1) :=
    mul_nonneg hπ (by linarith)
  refine ⟨Real.cos_sq_add_sin_sq _, ?_, ?_⟩
  · apply Real.cos_nonneg_of_mem_Icc
    refine Set.mem_Icc.mpr ⟨by nlinarith, by nlinarith⟩
  · apply Real.sin_nonneg_of_nonneg_of_le_pi
    · nlinarith
    · nlinarith

lemma updatePanGains_preserves (j i : ℕ) (s : EngineState) (h : gainsOK s i) :
    gainsOK (updatePanGains j s) i := by
  by_cases hij : i = j
  · subst hij
    exact updatePanGains_gainsOK_self i s
  · unfold gainsOK updatePanGains
    simp only [Function.update_noteq hij]
    exact h

lemma pre3_gains (j : ℕ) (f d a : Option ℝ) (s : EngineState) :
    (applyAmpMsg j a (applyDecayMsg j d (applyFreqMsg j f s))).leftPanGain = s.leftPanGain ∧
    (applyAmpMsg j a (applyDecayMsg j d (applyFreqMsg j f s))).rightPanGain = s.rightPanGain := by
  cases f <;> cases d <;> cases a <;> exact ⟨rfl, rfl⟩

lemma applyPanMsg_preserves (j : ℕ) (v : Option ℝ) (i : ℕ) (s : EngineState)
    (h : gainsOK s i) : gainsOK (applyPanMsg j v s) i := by
  cases v with
  | none => exact h
  | some x => exact updatePanGains_preserves j i _ (gainsOK_of_eq i rfl rfl h)

lemma handleSetBranchParams_preserves (msg : BranchParamsMsg) (i : ℕ) (s : EngineState)
    (h : gainsOK s i) : gainsOK (handleSetBranchParams msg s) i := by
  unfold handleSetBranchParams
  split
  · exact applyPanMsg_preserves _ _ i _
      (gainsOK_of_eq i (pre3_gains _ msg.freq msg.decay msg.amp s).1
        (pre3_gains _ msg.freq msg.decay msg.amp s).2 h)
  · exact h

lemma setAllStep_preserves (j : ℕ) (p : BranchSpec) (i : ℕ) (s : EngineState)
    (h : gainsOK s i) : gainsOK (setAllStep j p s) i := by
  unfold setAllStep
  exact gainsOK_of_eq i rfl rfl
    (updatePanGains_preserves j i _ (gainsOK_of_eq i rfl rfl h))

lemma handleSetAllBranches_preserves (arr : List BranchSpec) (i : ℕ) (s : EngineState)
    (h : gainsOK s i) : gainsOK (handleSetAllBranches arr s) i := by
  unfold handleSetAllBranches
  generalize (arr.take MAX_BRANCHES).enum = l
  induction l generalizing s with
  | nil => exact h
  | cons x xs ih => exact ih _ (setAllStep_preserves x.1 x.2 i s h)

/-- The operations of the engine's lifetime that follow construction:
the three control messages and, from the process loop, the throttled
per-branch pan-gain refresh and the per-sample smoothing step (which
writes smoothFreqHz, smoothAmp and smoothPan but not the gains). -/
inductive EngineOp where
  | branchMsg (msg : BranchParamsMsg)
  | allMsg (branches : List BranchSpec)
  | scaleMsg (pcs : Option (List ℤ))
  | panRefresh (b : ℕ)
  | smoothTick (b : ℕ)

/-- Apply one operation to the engine state. -/
noncomputable def applyOp (s : EngineState) : EngineOp → EngineState
  | .branchMsg msg => handleSetBranchParams msg s
  | .allMsg arr => handleSetAllBranches arr s
  | .scaleMsg pcs => { s with scalePitchClasses := pcs }
  | .panRefresh b => updatePanGains b s
  | .smoothTick b =>
      { s with
        smoothFreqHz := Function.update s.smoothFreqHz b
          (smoothToward (s.smoothFreqHz b) (s.branchFreqHz b) alphaFreq),
        smoothAmp := Function.update s.smoothAmp b
          (smoothToward (s.smoothAmp b) (s.branchAmp b) alphaAmp),
        smoothPan := Function.update s.smoothPan b
          (smoothToward (s.smoothPan b) (s.branchPan b) alphaAmp) }

/-- Apply a sequence of operations. -/
noncomputable def applyOps (ops : List EngineOp) (s : EngineState) : EngineState :=
  ops.foldl applyOp s

lemma applyOp_preserves (op : EngineOp) (i : ℕ) (s : EngineState)
    (h : gainsOK s i) : gainsOK (applyOp s op) i := by
  cases op with
  | branchMsg msg => exact handleSetBranchParams_preserves msg i s h
  | allMsg arr => exact handleSetAllBranches_preserves arr i s h
  | scaleMsg pcs => exact gainsOK_of_eq i rfl rfl h
  | panRefresh b => exact updatePanGains_preserves b i s h
  | smoothTick b => exact gainsOK_of_eq i rfl rfl h

lemma applyOps_preserves (ops : List EngineOp) (i : ℕ) (s : EngineState)
    (h : gainsOK s i) : gainsOK (applyOps ops s) i := by
  unfold applyOps
  induction ops generalizing s with
  | nil => exact h
  | cons op rest ih => exact ih _ (applyOp_preserves op i s h)

lemma initBranch_preserves (sr : ℝ) (j i : ℕ) (s : EngineState)
    (h : gainsOK s i) : gainsOK (initBranch sr j s) i := by
  unfold initBranch
  exact gainsOK_of_eq i rfl rfl
    (updatePanGains_preserves j i _ (gainsOK_of_eq i rfl rfl h))

lemma initBranch_self (sr : ℝ) (j : ℕ) (s : EngineState) :
    gainsOK (initBranch sr j s) j := by
  unfold initBranch
  exact gainsOK_of_eq j rfl rfl (updatePanGains_gainsOK_self j _)

lemma initFold_gainsOK (sr : ℝ) (l : List ℕ) (s : EngineState) (i : ℕ)
    (h : i ∈ l ∨ gainsOK s i) :
    gainsOK (l.foldl (fun st j => initBranch sr j st) s) i := by
  induction l generalizing s with
  | nil => exact h.resolve_left (by simp)
  | cons j js ih =>
    apply ih
    rcases h with h | h
    · rcases List.mem_cons.mp h with h | h
      · subst h
        exact Or.inr (initBranch_self sr i s)
      · exact Or.inl h
    · exact Or.inr (initBranch_preserves sr j i s h)

/-- Claim C10: the per-branch pan gains always satisfy the equal-power
identity leftGain^2 + rightGain^2 = 1 with both gains nonnegative:
updatePanGains computes them as cos and sin of t*pi/2 for t derived from
the clamped pan, every write to the stored gains goes through
updatePanGains, and the constructor establishes the identity for every
branch, so it holds after construction and after every operation. -/
theorem C10_equal_power_invariant (sr : ℝ) (ops : List EngineOp) (i : ℕ)
    (hi : i < MAX_BRANCHES) :
    gainsOK (applyOps ops (initState sr)) i := by
  have hinit : gainsOK (initState sr) i := by
    unfold initState
    exact initFold_gainsOK sr _ _ i (Or.inl (List.mem_range.mpr hi))
  exact applyOps_preserves ops i _ hinit

/-- Witness for C10: branch 0 after construction at 48 kHz with no
further operations. -/
theorem C10_witness : gainsOK (applyOps [] (initState 48000)) 0 :=
  C10_equal_power_invariant 48000 [] 0 (by norm_num [MAX_BRANCHES])

end InfiniteGreens
